import Mathlib

/-!
Formal model of the expiring key-value cache and the cache-aware batch
resolver of the AccountsAPI client library.

The cache (`src/lib/cache.ts`) is a string-keyed map of entries carrying a
value and an absolute expiry instant; eviction is lazy, performed by
`get`/`has` at observation time.  The resolver (`src/lib/utils.ts`,
`AccountsAPI.getUser` / `getUsers` / `verifyUser`) sits above the cache and
a remote-fetch collaborator.  Time is passed explicitly (the JS code reads
`Date.now()`); the remote collaborator is an `Except`-valued function, and
each resolver operation also returns the list of remote calls it issued so
that call-count properties can be stated.
-/

/-- A cache entry: the stored value and its absolute expiry instant in
milliseconds (`{ value, expires }` in `cache.ts`). -/
structure CacheEntry (V : Type) where
  value : V
  expires : Nat
deriving Repr, DecidableEq

/-- Lookup in the underlying string-keyed map (JS `Map.get`): the entry
bound to `k`, if any. -/
def mapGet {V : Type} : List (String × CacheEntry V) → String → Option (CacheEntry V)
  | [], _ => none
  | (k2, e) :: rest, k => if k2 = k then some e else mapGet rest k

/-- JS `Map.has`: whether a binding for `k` exists. -/
def mapHas {V : Type} (m : List (String × CacheEntry V)) (k : String) : Bool :=
  (mapGet m k).isSome

/-- JS `Map.set`: overwrite the binding for `k` in place, or append a
fresh binding. -/
def mapSet {V : Type} : List (String × CacheEntry V) → String → CacheEntry V → List (String × CacheEntry V)
  | [], k, e => [(k, e)]
  | (k2, e2) :: rest, k, e => if k2 = k then (k, e) :: rest else (k2, e2) :: mapSet rest k e

/-- JS `Map.delete`: remove the binding for `k`, if any. -/
def mapDelete {V : Type} (m : List (String × CacheEntry V)) (k : String) : List (String × CacheEntry V) :=
  m.filter (fun p => p.1 != k)

/-- The `Cache` class of `cache.ts`: a default timeout fixed at
construction and the underlying map. -/
structure Cache (V : Type) where
  timeout : Nat
  cache : List (String × CacheEntry V)
deriving Repr, DecidableEq

/-- `Cache.get(key)`: if a binding exists and is live (`expires > now`)
return its value; if it exists but is expired, delete it and return null;
otherwise return null.  `now` is the instant `Date.now()` reads. -/
def Cache.get {V : Type} (c : Cache V) (key : String) (now : Nat) : Option V × Cache V :=
  if mapHas c.cache key then
    match mapGet c.cache key with
    | none => (none, c)
    | some found =>
      if found.expires > now then (some found.value, c)
      else (none, { c with cache := mapDelete c.cache key })
  else (none, c)

/-- `Cache.set(key, value, timeout)`: unconditionally bind `key` to the
value with expiry `now + timeout`. -/
def Cache.set {V : Type} (c : Cache V) (key : String) (value : V) (timeout : Nat) (now : Nat) : Cache V :=
  { c with cache := mapSet c.cache key ⟨value, now + timeout⟩ }

/-- `Cache.set(key, value)` with the `timeout` argument defaulted to the
store-wide timeout fixed at construction. -/
def Cache.setDefault {V : Type} (c : Cache V) (key : String) (value : V) (now : Nat) : Cache V :=
  c.set key value c.timeout now

/-- `Cache.delete(key)`. -/
def Cache.delete {V : Type} (c : Cache V) (key : String) : Cache V :=
  { c with cache := mapDelete c.cache key }

/-- `Cache.clear()`. -/
def Cache.clear {V : Type} (c : Cache V) : Cache V :=
  { c with cache := [] }

/-- `Cache.has(key)`: same walk as `Cache.get`, returning a boolean. -/
def Cache.has {V : Type} (c : Cache V) (key : String) (now : Nat) : Bool × Cache V :=
  if mapHas c.cache key then
    match mapGet c.cache key with
    | none => (false, c)
    | some found =>
      if found.expires > now then (true, c)
      else (false, { c with cache := mapDelete c.cache key })
  else (false, c)

/-- An entry for `k` exists and is live at instant `now`. -/
def liveAt {V : Type} (c : Cache V) (k : String) (now : Nat) : Bool :=
  match mapGet c.cache k with
  | some e => decide (e.expires > now)
  | none => false

/-- The value currently bound to `k`, ignoring expiry. -/
def valAt {V : Type} (c : Cache V) (k : String) : Option V :=
  (mapGet c.cache k).map (·.value)

theorem mapGet_mapSet {V : Type} (m : List (String × CacheEntry V)) (k j : String) (e : CacheEntry V) :
    mapGet (mapSet m k e) j = if k = j then some e else mapGet m j := by
  induction m with
  | nil => simp [mapSet, mapGet]
  | cons p rest ih =>
    obtain ⟨k2, e2⟩ := p
    by_cases h : k2 = k
    · subst h
      by_cases h2 : k2 = j <;> simp [mapSet, mapGet, h2]
    · by_cases h2 : k2 = j
      · subst h2
        have h' : k ≠ k2 := Ne.symm h
        simp [mapSet, mapGet, h, h']
      · simp [mapSet, mapGet, h, h2, ih]

theorem mapDelete_cons {V : Type} (k2 : String) (e2 : CacheEntry V)
    (rest : List (String × CacheEntry V)) (k : String) :
    mapDelete ((k2, e2) :: rest) k =
      if k2 = k then mapDelete rest k else (k2, e2) :: mapDelete rest k := by
  by_cases h : k2 = k <;> simp [mapDelete, List.filter_cons, h]

theorem mapGet_mapDelete {V : Type} (m : List (String × CacheEntry V)) (k j : String) :
    mapGet (mapDelete m k) j = if k = j then none else mapGet m j := by
  induction m with
  | nil => simp [mapDelete, mapGet]
  | cons p rest ih =>
    obtain ⟨k2, e2⟩ := p
    rw [mapDelete_cons]
    by_cases h : k2 = k
    · subst h
      by_cases h2 : k2 = j
      · subst h2
        simp [ih]
      · simp [mapGet, h2, ih]
    · by_cases h2 : k2 = j
      · subst h2
        have h' : k ≠ k2 := Ne.symm h
        simp [mapGet, h, h']
      · simp [mapGet, h, h2, ih]

theorem Cache.get_eq {V : Type} (c : Cache V) (k : String) (now : Nat) :
    c.get k now = ((if liveAt c k now then valAt c k else none),
      if mapHas c.cache k && !liveAt c k now then c.delete k else c) := by
  cases h : mapGet c.cache k with
  | none => simp [Cache.get, mapHas, liveAt, h]
  | some found =>
    by_cases hl : found.expires > now <;>
      simp [Cache.get, Cache.delete, mapHas, liveAt, valAt, h, hl]

theorem Cache.has_eq {V : Type} (c : Cache V) (k : String) (now : Nat) :
    c.has k now = (liveAt c k now,
      if mapHas c.cache k && !liveAt c k now then c.delete k else c) := by
  cases h : mapGet c.cache k with
  | none => simp [Cache.has, mapHas, liveAt, h]
  | some found =>
    by_cases hl : found.expires > now <;>
      simp [Cache.has, Cache.delete, mapHas, liveAt, valAt, h, hl]

theorem liveAt_delete {V : Type} (c : Cache V) (k j : String) (now : Nat) :
    liveAt (c.delete k) j now = if k = j then false else liveAt c j now := by
  by_cases h : k = j <;> simp [liveAt, Cache.delete, mapGet_mapDelete, h]

theorem valAt_delete {V : Type} (c : Cache V) (k j : String) :
    valAt (c.delete k) j = if k = j then none else valAt c j := by
  by_cases h : k = j <;> simp [valAt, Cache.delete, mapGet_mapDelete, h]

theorem has_snd_timeout {V : Type} (c : Cache V) (k : String) (now : Nat) :
    ((c.has k now).2).timeout = c.timeout := by
  rw [Cache.has_eq]
  split <;> simp [Cache.delete]

theorem has_snd_live {V : Type} (c : Cache V) (k : String) (now : Nat)
    (h : liveAt c k now = true) : (c.has k now).2 = c := by
  rw [Cache.has_eq]
  simp [h]

theorem get_snd_live {V : Type} (c : Cache V) (k : String) (now : Nat)
    (h : liveAt c k now = true) : (c.get k now).2 = c := by
  rw [Cache.get_eq]
  simp [h]

theorem liveAt_has_snd {V : Type} (c : Cache V) (k j : String) (now : Nat) :
    liveAt ((c.has k now).2) j now = liveAt c j now := by
  rw [Cache.has_eq]
  by_cases h : mapHas c.cache k && !liveAt c k now
  · simp only [h, if_pos, liveAt_delete]
    by_cases hkj : k = j
    · subst hkj
      simp_all
    · simp [hkj]
  · simp [h]

theorem valAt_has_snd {V : Type} (c : Cache V) (k j : String) (now : Nat)
    (hj : liveAt c j now = true) : valAt ((c.has k now).2) j = valAt c j := by
  rw [Cache.has_eq]
  by_cases h : mapHas c.cache k && !liveAt c k now
  · simp only [h, if_pos, valAt_delete]
    by_cases hkj : k = j
    · subst hkj
      simp_all
    · simp [hkj]
  · simp [h]

theorem mapGet_has_snd_or {V : Type} (c : Cache V) (k j : String) (now : Nat) :
    mapGet ((c.has k now).2).cache j = mapGet c.cache j ∨
      mapGet ((c.has k now).2).cache j = none := by
  rw [Cache.has_eq]
  split
  · by_cases hkj : k = j
    · subst hkj
      simp [Cache.delete, mapGet_mapDelete]
    · simp [Cache.delete, mapGet_mapDelete, hkj]
  · left; rfl

/-- Errors surfaced by the resolver: the synchronous batch-limit error
(`throw new Error(...)` in `getUsers`) or a failure of the remote
collaborator, propagated unchanged. -/
inductive ApiError (E : Type) where
  | invalidArgument (msg : String)
  | remote (e : E)
deriving Repr, DecidableEq

/-- `AccountsAPI.getUser(id, force)`.  The remote collaborator
(`GET /users/:id`) is `fetchOne`; `now` is the instant of the synchronous
cache phase and `now2` the instant of the cache write after the awaited
fetch.  Returns (result, final cache, list of remote calls issued).  The
cache-hit branch returns `this.#cache.get(id)`, whose static cast hides
that it is nullable, hence the `Option V` result payload. -/
def getUser {V E : Type} (c : Cache V) (fetchOne : String → Except E V)
    (id : String) (force : Bool) (now now2 : Nat) :
    Except E (Option V) × Cache V × List String :=
  let h := c.has id now
  if h.1 && !force then
    let g := h.2.get id now
    (.ok g.1, g.2, [])
  else
    match fetchOne id with
    | .error e => (.error e, h.2, [id])
    | .ok v => (.ok (some v), h.2.setDefault id v now2, [id])

/-- The `for (const id of ids)` loop of `AccountsAPI.getUsers`: walks the
input keys, pushing cache hits onto `users` and misses onto `notInCache`.
Returns (`users` so far, `notInCache`, cache after the walk). -/
def getUsersWalk {V : Type} (c : Cache V) (ids : List String) (force : Bool) (now : Nat) :
    List (Option V) × List String × Cache V :=
  match ids with
  | [] => ([], [], c)
  | id :: rest =>
    let h := c.has id now
    if h.1 && !force then
      let g := h.2.get id now
      let w := getUsersWalk g.2 rest force now
      (g.1 :: w.1, w.2.1, w.2.2)
    else
      let w := getUsersWalk h.2 rest force now
      (w.1, id :: w.2.1, w.2.2)

/-- `AccountsAPI.getUsers(ids, force)`.  `uid` reads the `id` field of a
fetched value; `fetchMany` is the remote collaborator
(`GET /users/multiple?ids=...`); `now` is the instant of the synchronous
walk and `now2` the instant of the cache writes after the awaited fetch.
Returns (result, final cache, list of remote calls issued). -/
def getUsers {V E : Type} (uid : V → String) (c : Cache V)
    (fetchMany : List String → Except E (List V)) (ids : List String) (force : Bool)
    (now now2 : Nat) :
    Except (ApiError E) (List (Option V)) × Cache V × List (List String) :=
  if ids.length > 100 then
    (.error (.invalidArgument "Cannot get more than 100 users at once"), c, [])
  else
    let w := getUsersWalk c ids force now
    if w.2.1.length > 0 then
      match fetchMany w.2.1 with
      | .error e => (.error (.remote e), w.2.2, [w.2.1])
      | .ok fetched =>
        (.ok (w.1 ++ fetched.map some),
         fetched.foldl (fun acc u => acc.setDefault (uid u) u now2) w.2.2,
         [w.2.1])
    else (.ok w.1, w.2.2, [])

/-- The `{ user, scope }` payload returned by `POST /users/verify`. -/
structure VerifyUserResponse (V : Type) where
  user : V
  scope : String
deriving Repr, DecidableEq

/-- `AccountsAPI.verifyUser(code)`: posts the authorization code, caches
the returned user under its own id with the default timeout, and returns
the response unchanged. -/
def verifyUser {V E : Type} (uid : V → String) (c : Cache V)
    (post : String → Except E (VerifyUserResponse V)) (code : String) (now : Nat) :
    Except E (VerifyUserResponse V) × Cache V :=
  match post code with
  | .error e => (.error e, c)
  | .ok res => (.ok res, c.setDefault (uid res.user) res.user now)

/-- A concrete user record (id plus a distinguishing payload) used to
instantiate the generic value type in concrete scenarios. -/
structure User where
  id : String
  tag : Nat
deriving Repr, DecidableEq

theorem get_snd_eq_has_snd {V : Type} (c : Cache V) (k : String) (now : Nat) :
    (c.get k now).2 = (c.has k now).2 := by
  rw [Cache.get_eq, Cache.has_eq]

theorem valAt_isSome_of_liveAt {V : Type} (c : Cache V) (k : String) (now : Nat)
    (h : liveAt c k now = true) : ∃ v, valAt c k = some v := by
  unfold liveAt at h
  cases hg : mapGet c.cache k with
  | none => simp [hg] at h
  | some e => exact ⟨e.value, by simp [valAt, hg]⟩

theorem get_fst_eq {V : Type} (c : Cache V) (k : String) (now : Nat) :
    (c.get k now).1 = if liveAt c k now then valAt c k else none := by
  rw [Cache.get_eq]

theorem get_snd_eq {V : Type} (c : Cache V) (k : String) (now : Nat) :
    (c.get k now).2 = if mapHas c.cache k && !liveAt c k now then c.delete k else c := by
  rw [Cache.get_eq]

theorem has_fst_eq {V : Type} (c : Cache V) (k : String) (now : Nat) :
    (c.has k now).1 = liveAt c k now := by
  rw [Cache.has_eq]

theorem has_snd_eq {V : Type} (c : Cache V) (k : String) (now : Nat) :
    (c.has k now).2 = if mapHas c.cache k && !liveAt c k now then c.delete k else c := by
  rw [Cache.has_eq]

/-- Claim C1: after `set(k, v, ttl)` at instant `t0`, a `get(k)` at elapsed
time `t < ttl` returns `v` and leaves the cache unchanged, while a `get(k)`
at elapsed time `t ≥ ttl` (including the boundary `t = ttl`) returns null
and removes the entry, exactly as `delete(k)` would. -/
theorem C1_cache_expiry {V : Type} (c : Cache V) (k : String) (v : V) (ttl t0 t : Nat) :
    (t < ttl →
      ((c.set k v ttl t0).get k (t0 + t)).1 = some v ∧
      ((c.set k v ttl t0).get k (t0 + t)).2 = c.set k v ttl t0) ∧
    (ttl ≤ t →
      ((c.set k v ttl t0).get k (t0 + t)).1 = none ∧
      ((c.set k v ttl t0).get k (t0 + t)).2 = (c.set k v ttl t0).delete k) := by
  have hget : mapGet (c.set k v ttl t0).cache k = some ⟨v, t0 + ttl⟩ := by
    simp [Cache.set, mapGet_mapSet]
  constructor
  · intro ht
    have hlive : liveAt (c.set k v ttl t0) k (t0 + t) = true := by
      simp only [liveAt, hget]
      simp
      omega
    rw [Cache.get_eq]
    simp [hlive, valAt, hget]
  · intro ht
    have hlive : liveAt (c.set k v ttl t0) k (t0 + t) = false := by
      simp only [liveAt, hget]
      simp
      omega
    rw [Cache.get_eq]
    simp [hlive, mapHas, hget]

/-- A concrete store over `Nat` values with a 1000ms default timeout. -/
def cNat : Cache Nat := ⟨1000, []⟩

/-- Witness for C1 at the spec's concrete scenario: timeout 1000ms, set at
`t = 0`, read back at 500 (live, unchanged) and at 1500 (expired and
evicted). -/
theorem C1_cache_expiry_witness :
    (500 < 1000 ∧
      ((cNat.set "u1" 42 1000 0).get "u1" (0 + 500)).1 = some 42 ∧
      ((cNat.set "u1" 42 1000 0).get "u1" (0 + 500)).2 = cNat.set "u1" 42 1000 0) ∧
    (1000 ≤ 1500 ∧
      ((cNat.set "u1" 42 1000 0).get "u1" (0 + 1500)).1 = none ∧
      ((cNat.set "u1" 42 1000 0).get "u1" (0 + 1500)).2 = (cNat.set "u1" 42 1000 0).delete "u1") :=
  ⟨⟨by decide, (C1_cache_expiry cNat "u1" 42 1000 0 500).1 (by decide)⟩,
   ⟨by decide, (C1_cache_expiry cNat "u1" 42 1000 0 1500).2 (by decide)⟩⟩

/-- Claim C7: at a fixed instant, `has` and `get` leave the store in the
identical post-state, and `has` returns true exactly when `get` returns a
non-null value. -/
theorem C7_has_get_agree {V : Type} (c : Cache V) (k : String) (now : Nat) :
    (c.has k now).2 = (c.get k now).2 ∧
    ((c.has k now).1 = true ↔ (c.get k now).1 ≠ none) := by
  refine ⟨(get_snd_eq_has_snd c k now).symm, ?_⟩
  rw [Cache.has_eq, Cache.get_eq]
  by_cases h : liveAt c k now
  · obtain ⟨v, hv⟩ := valAt_isSome_of_liveAt c k now h
    simp [h, hv]
  · simp [h]

/-- Claim C9: every store operation touches at most the queried key: for
`k2 ≠ k`, the entry for `k2` (value and expiry) is exactly unchanged by
`get(k)`, `has(k)`, `set(k, v, ttl)` and `delete(k)`. -/
theorem C9_frame {V : Type} (c : Cache V) (k k2 : String) (v : V) (ttl now : Nat)
    (hne : k2 ≠ k) :
    mapGet ((c.get k now).2).cache k2 = mapGet c.cache k2 ∧
    mapGet ((c.has k now).2).cache k2 = mapGet c.cache k2 ∧
    mapGet ((c.set k v ttl now).cache) k2 = mapGet c.cache k2 ∧
    mapGet ((c.delete k).cache) k2 = mapGet c.cache k2 := by
  have hk : k ≠ k2 := Ne.symm hne
  refine ⟨?_, ?_, ?_, ?_⟩
  · rw [get_snd_eq]
    split <;> simp [Cache.delete, mapGet_mapDelete, hk]
  · rw [has_snd_eq]
    split <;> simp [Cache.delete, mapGet_mapDelete, hk]
  · simp [Cache.set, mapGet_mapSet, hk]
  · simp [Cache.delete, mapGet_mapDelete, hk]

/-- A concrete store holding a live entry for `"a"` and an expired entry
for `"x"` (observed at instant 50). -/
def cNat2 : Cache Nat := ⟨1000, [("a", ⟨7, 100⟩), ("x", ⟨9, 20⟩)]⟩

/-- Witness for C9: operations on key `"x"` leave the entry for `"a"`
untouched in the concrete store. -/
theorem C9_frame_witness :
    "a" ≠ "x" ∧
    (mapGet ((cNat2.get "x" 50).2).cache "a" = mapGet cNat2.cache "a" ∧
     mapGet ((cNat2.has "x" 50).2).cache "a" = mapGet cNat2.cache "a" ∧
     mapGet ((cNat2.set "x" 3 10 50).cache) "a" = mapGet cNat2.cache "a" ∧
     mapGet ((cNat2.delete "x").cache) "a" = mapGet cNat2.cache "a") :=
  ⟨by decide, C9_frame cNat2 "x" "a" 3 10 50 (by decide)⟩

theorem liveAt_get_snd {V : Type} (c : Cache V) (k j : String) (now : Nat) :
    liveAt ((c.get k now).2) j now = liveAt c j now := by
  rw [get_snd_eq_has_snd, liveAt_has_snd]

theorem getUsersWalk_spec {V : Type} (ids : List String) (c : Cache V) (now : Nat) :
    (getUsersWalk c ids false now).1 =
      ids.filterMap (fun i => if liveAt c i now then some (valAt c i) else none) ∧
    (getUsersWalk c ids false now).2.1 = ids.filter (fun i => !liveAt c i now) := by
  induction ids generalizing c with
  | nil => simp [getUsersWalk]
  | cons id rest ih =>
    by_cases hl : liveAt c id now
    · have h1 : (c.has id now).1 = true := by rw [has_fst_eq]; exact hl
      have h2 : (c.has id now).2 = c := has_snd_live c id now hl
      have g1 : (c.get id now).1 = valAt c id := by rw [get_fst_eq]; simp [hl]
      have g2 : (c.get id now).2 = c := get_snd_live c id now hl
      have hrest := ih c
      simp only [getUsersWalk, h1, h2, g1, g2]
      simp [List.filterMap_cons, List.filter_cons, hl, hrest.1, hrest.2]
    · have h1 : (c.has id now).1 = false := by rw [has_fst_eq]; simpa using hl
      have hrest := ih (c.has id now).2
      have hfun : (fun i => if liveAt ((c.has id now).2) i now then some (valAt ((c.has id now).2) i) else none)
          = (fun i => if liveAt c i now then some (valAt c i) else none) := by
        funext i
        by_cases hli : liveAt c i now
        · rw [liveAt_has_snd, valAt_has_snd c id i now hli]
        · rw [liveAt_has_snd]
          simp [hli]
      have hfun2 : (fun i => !liveAt ((c.has id now).2) i now) = (fun i => !liveAt c i now) := by
        funext i
        rw [liveAt_has_snd]
      rw [hfun] at hrest
      rw [hfun2] at hrest
      simp only [getUsersWalk, h1]
      simp [List.filterMap_cons, List.filter_cons, hl, hrest.1, hrest.2]

/-- Claim C6: `getUser` returns the cached value with no remote call when
`force` is false and the key is live in the store; otherwise (cache miss or
`force` true) it issues `fetchOne`, writes the fetched result under the
store-wide default timeout, and returns it — in particular with a live
entry, `force = true` still fetches and overwrites the entry. -/
theorem C6_getUser_resolve {V E : Type} (c : Cache V) (fetchOne : String → Except E V)
    (id : String) (now now2 : Nat) :
    (liveAt c id now = true →
      getUser c fetchOne id false now now2 = (.ok (valAt c id), c, [])) ∧
    (∀ (force : Bool) (v : V), (liveAt c id now = false ∨ force = true) →
      fetchOne id = .ok v →
      getUser c fetchOne id force now now2 =
        (.ok (some v), ((c.has id now).2).set id v c.timeout now2, [id]) ∧
      mapGet ((getUser c fetchOne id force now now2).2.1).cache id =
        some ⟨v, now2 + c.timeout⟩) := by
  constructor
  · intro hl
    have h1 : (c.has id now).1 = true := by rw [has_fst_eq]; exact hl
    have h2 : (c.has id now).2 = c := has_snd_live c id now hl
    have g1 : (c.get id now).1 = valAt c id := by rw [get_fst_eq]; simp [hl]
    have g2 : (c.get id now).2 = c := get_snd_live c id now hl
    simp [getUser, h1, h2, g1, g2]
  · intro force v hmiss hfetch
    have hcond : ((c.has id now).1 && !force) = false := by
      rcases hmiss with hm | hm
      · rw [has_fst_eq, hm]
        simp
      · rw [hm]
        simp
    have hres : getUser c fetchOne id force now now2 =
        (.ok (some v), ((c.has id now).2).set id v c.timeout now2, [id]) := by
      simp [getUser, hcond, hfetch, Cache.setDefault, has_snd_timeout]
    refine ⟨hres, ?_⟩
    rw [hres]
    simp [Cache.set, mapGet_mapSet]

/-- A concrete user with id `"a"`, as initially cached. -/
def userA : User := ⟨"a", 1⟩

/-- A fresher remote copy of the user with id `"a"`. -/
def userA2 : User := ⟨"a", 2⟩

/-- A concrete user with id `"b"`. -/
def userB : User := ⟨"b", 5⟩

/-- A concrete store with the default 300000ms timeout holding a live
entry for `"a"` (expiry 100, observed at instant 50). -/
def cacheA : Cache User := ⟨300000, [("a", ⟨userA, 100⟩)]⟩

/-- A concrete single-key remote collaborator knowing only `"a"`. -/
def fetchOneW : String → Except Unit User :=
  fun i => if i = "a" then .ok userA2 else .error ()

/-- Witness for C6: with `"a"` live at instant 50, the cached value is
returned without any fetch, and `force = true` fetches and overwrites. -/
theorem C6_getUser_resolve_witness :
    (liveAt cacheA "a" 50 = true ∧
      getUser cacheA fetchOneW "a" false 50 60 = (.ok (valAt cacheA "a"), cacheA, [])) ∧
    ((liveAt cacheA "a" 50 = false ∨ true = true) ∧ fetchOneW "a" = .ok userA2 ∧
      (getUser cacheA fetchOneW "a" true 50 60 =
        (.ok (some userA2), ((cacheA.has "a" 50).2).set "a" userA2 cacheA.timeout 60, ["a"]) ∧
       mapGet ((getUser cacheA fetchOneW "a" true 50 60).2.1).cache "a" =
        some ⟨userA2, 60 + cacheA.timeout⟩)) :=
  ⟨⟨by decide, (C6_getUser_resolve cacheA fetchOneW "a" 50 60).1 (by decide)⟩,
   ⟨Or.inr rfl, rfl,
    (C6_getUser_resolve cacheA fetchOneW "a" 50 60).2 true userA2 (Or.inr rfl) rfl⟩⟩

/-- Claim C2: for at most 100 keys with `force = false`, the misses are
exactly the non-live keys in walk (= input) order and the hits are the
cached values in input order; an all-hit input issues zero remote calls
and returns the hits; otherwise exactly one `fetchMany` call is issued,
carrying exactly the miss list, and the result is the hits followed by the
fetched values in the remote's order, each fetched value being written to
the store with the default timeout. -/
theorem C2_partial_hit_batching {V E : Type} (uid : V → String) (c : Cache V)
    (fetchMany : List String → Except E (List V)) (ids : List String) (now now2 : Nat)
    (hlen : ids.length ≤ 100) :
    ((getUsersWalk c ids false now).2.1 = ids.filter (fun i => !liveAt c i now)) ∧
    ((getUsersWalk c ids false now).1 =
       ids.filterMap (fun i => if liveAt c i now then some (valAt c i) else none)) ∧
    ((getUsersWalk c ids false now).2.1 = [] →
      getUsers uid c fetchMany ids false now now2 =
        (.ok (getUsersWalk c ids false now).1, (getUsersWalk c ids false now).2.2, [])) ∧
    (∀ fetched, (getUsersWalk c ids false now).2.1 ≠ [] →
      fetchMany (getUsersWalk c ids false now).2.1 = .ok fetched →
      getUsers uid c fetchMany ids false now now2 =
        (.ok ((getUsersWalk c ids false now).1 ++ fetched.map some),
         fetched.foldl (fun acc u => acc.setDefault (uid u) u now2) (getUsersWalk c ids false now).2.2,
         [(getUsersWalk c ids false now).2.1])) := by
  have hng : ¬ ids.length > 100 := by omega
  obtain ⟨hh, hm⟩ := getUsersWalk_spec ids c now
  refine ⟨hm, hh, ?_, ?_⟩
  · intro hempty
    simp [getUsers, hng, hempty]
  · intro fetched hne hfetch
    have hpos : (getUsersWalk c ids false now).2.1.length > 0 := List.length_pos.mpr hne
    simp [getUsers, hng, hpos, hfetch]

/-- A concrete batch remote collaborator: knows `["b"]` (returning
`userB`) and returns the empty list on `["b", "b"]`. -/
def fetchManyW : List String → Except Unit (List User) :=
  fun ks => if ks = ["b"] then .ok [userB] else if ks = ["b", "b"] then .ok [] else .error ()

/-- Witness for C2 at the spec's concrete scenario: `"a"` live, `"b"`
absent, batch `["a", "b"]` issues the single call `fetchMany ["b"]` and
returns the cached value for `"a"` before the fetched `userB`. -/
theorem C2_partial_hit_batching_witness :
    ([("a" : String), "b"].length ≤ 100 ∧
      (getUsersWalk cacheA ["a", "b"] false 50).2.1 =
        ["a", "b"].filter (fun i => !liveAt cacheA i 50)) ∧
    ((getUsersWalk cacheA ["a", "b"] false 50).2.1 ≠ [] ∧
      fetchManyW (getUsersWalk cacheA ["a", "b"] false 50).2.1 = .ok [userB] ∧
      getUsers User.id cacheA fetchManyW ["a", "b"] false 50 60 =
        (.ok ((getUsersWalk cacheA ["a", "b"] false 50).1 ++ [userB].map some),
         [userB].foldl (fun acc u => acc.setDefault u.id u 60) (getUsersWalk cacheA ["a", "b"] false 50).2.2,
         [(getUsersWalk cacheA ["a", "b"] false 50).2.1])) :=
  ⟨⟨by decide, (C2_partial_hit_batching User.id cacheA fetchManyW ["a", "b"] 50 60 (by decide)).1⟩,
   ⟨by decide, rfl,
    (C2_partial_hit_batching User.id cacheA fetchManyW ["a", "b"] 50 60 (by decide)).2.2.2
      [userB] (by decide) rfl⟩⟩

/-- Claim C3: a batch of more than 100 keys fails synchronously with the
`InvalidArgument` error, with zero remote calls and the store exactly
unchanged. -/
theorem C3_batch_limit {V E : Type} (uid : V → String) (c : Cache V)
    (fetchMany : List String → Except E (List V)) (ids : List String) (force : Bool)
    (now now2 : Nat) (h : ids.length > 100) :
    getUsers uid c fetchMany ids force now now2 =
      (.error (.invalidArgument "Cannot get more than 100 users at once"), c, []) := by
  simp [getUsers, h]

/-- Witness for C3: a batch of 101 keys fails with the limit error, no
remote call, store untouched. -/
theorem C3_batch_limit_witness :
    (List.replicate 101 "x").length > 100 ∧
    getUsers User.id cacheA fetchManyW (List.replicate 101 "x") false 50 60 =
      (.error (.invalidArgument "Cannot get more than 100 users at once"), cacheA, []) :=
  ⟨by decide,
   C3_batch_limit User.id cacheA fetchManyW (List.replicate 101 "x") false 50 60 (by decide)⟩

/-- Claim C4: duplicate keys are processed once per occurrence: a live
duplicated key contributes its cached value once per occurrence with no
remote call (`resolveMany([k, k])` returns the value twice), and a miss
key appears in the single `fetchMany` argument list as many times as it
occurs in the input. -/
theorem C4_duplicate_keys {V E : Type} (uid : V → String) (c : Cache V)
    (fetchMany : List String → Except E (List V)) (k : String) (ids : List String)
    (now now2 : Nat) :
    (liveAt c k now = true →
      getUsers uid c fetchMany [k, k] false now now2 =
        (.ok [valAt c k, valAt c k], c, [])) ∧
    (liveAt c k now = false →
      ((getUsersWalk c ids false now).2.1).count k = ids.count k) := by
  constructor
  · intro hl
    have h1 : (c.has k now).1 = true := by rw [has_fst_eq]; exact hl
    have h2 : (c.has k now).2 = c := has_snd_live c k now hl
    have g1 : (c.get k now).1 = valAt c k := by rw [get_fst_eq]; simp [hl]
    have g2 : (c.get k now).2 = c := get_snd_live c k now hl
    simp [getUsers, getUsersWalk, h1, h2, g1, g2]
  · intro hl
    rw [(getUsersWalk_spec ids c now).2]
    exact List.count_filter (by simp [hl])

/-- Witness for C4: `["a", "a"]` with `"a"` live returns the cached value
twice and triggers zero remote calls, while the miss key `"b"` occurs in
the miss list of `["b", "b"]` twice — once per occurrence. -/
theorem C4_duplicate_keys_witness :
    (liveAt cacheA "a" 50 = true ∧
      getUsers User.id cacheA fetchManyW ["a", "a"] false 50 60 =
        (.ok [valAt cacheA "a", valAt cacheA "a"], cacheA, [])) ∧
    (liveAt cacheA "b" 50 = false ∧
      ((getUsersWalk cacheA ["b", "b"] false 50).2.1).count "b" = (["b", "b"] : List String).count "b") :=
  ⟨⟨by decide,
    (C4_duplicate_keys User.id cacheA fetchManyW "a" [] 50 60).1 (by decide)⟩,
   ⟨by decide,
    (C4_duplicate_keys User.id cacheA fetchManyW "b" ["b", "b"] 50 60).2 (by decide)⟩⟩

theorem length_filterMap_ite {V : Type} (ids : List String) (p : String → Bool)
    (f : String → Option V) :
    (ids.filterMap (fun i => if p i then some (f i) else none)).length =
      (ids.filter p).length := by
  induction ids with
  | nil => rfl
  | cons a l ih =>
    by_cases h : p a <;> simp [List.filterMap_cons, List.filter_cons, h, ih]

/-- Claim C10: for at most 100 keys (`force = false`), the result length
is the number of cache-hit occurrences plus the number of values the
remote returned — whatever that number is, so the result length need not
equal the input length. -/
theorem C10_result_length {V E : Type} (uid : V → String) (c : Cache V)
    (fetchMany : List String → Except E (List V)) (ids : List String) (now now2 : Nat)
    (hlen : ids.length ≤ 100) :
    ((getUsersWalk c ids false now).1.length =
       (ids.filter (fun i => liveAt c i now)).length) ∧
    ((getUsersWalk c ids false now).2.1 = [] →
      ∃ l, (getUsers uid c fetchMany ids false now now2).1 = .ok l ∧
        l.length = (getUsersWalk c ids false now).1.length) ∧
    (∀ fetched, (getUsersWalk c ids false now).2.1 ≠ [] →
      fetchMany (getUsersWalk c ids false now).2.1 = .ok fetched →
      ∃ l, (getUsers uid c fetchMany ids false now now2).1 = .ok l ∧
        l.length = (getUsersWalk c ids false now).1.length + fetched.length) := by
  have hng : ¬ ids.length > 100 := by omega
  refine ⟨?_, ?_, ?_⟩
  · rw [(getUsersWalk_spec ids c now).1]
    exact length_filterMap_ite ids (fun i => liveAt c i now) (fun i => valAt c i)
  · intro hempty
    refine ⟨(getUsersWalk c ids false now).1, ?_, rfl⟩
    simp [getUsers, hng, hempty]
  · intro fetched hne hfetch
    have hpos : (getUsersWalk c ids false now).2.1.length > 0 := List.length_pos.mpr hne
    refine ⟨(getUsersWalk c ids false now).1 ++ fetched.map some, ?_, by simp⟩
    simp [getUsers, hng, hpos, hfetch]

/-- A batch remote collaborator that returns zero values for any query. -/
def fetchManyWEmpty : List String → Except Unit (List User) :=
  fun _ => .ok []

/-- Witness for C10: batch `["a", "b"]` with `"a"` live and the remote
returning zero values for `["b"]` yields a result of length 1, strictly
shorter than the 2-element input. -/
theorem C10_result_length_witness :
    ([("a" : String), "b"].length ≤ 100 ∧
      (getUsersWalk cacheA ["a", "b"] false 50).2.1 ≠ [] ∧
      fetchManyWEmpty (getUsersWalk cacheA ["a", "b"] false 50).2.1 = .ok [] ∧
      (∃ l, (getUsers User.id cacheA fetchManyWEmpty ["a", "b"] false 50 60).1 = .ok l ∧
        l.length = (getUsersWalk cacheA ["a", "b"] false 50).1.length + ([] : List User).length)) :=
  ⟨by decide, by decide, rfl,
   (C10_result_length User.id cacheA fetchManyWEmpty ["a", "b"] 50 60 (by decide)).2.2
     [] (by decide) rfl⟩

theorem mapGet_walk_or {V : Type} (ids : List String) (c : Cache V) (force : Bool)
    (now : Nat) (j : String) :
    mapGet ((getUsersWalk c ids force now).2.2).cache j = mapGet c.cache j ∨
    mapGet ((getUsersWalk c ids force now).2.2).cache j = none := by
  induction ids generalizing c with
  | nil => left; rfl
  | cons id rest ih =>
    simp only [getUsersWalk]
    by_cases hcond : ((c.has id now).1 && !force) = true
    · rw [if_pos hcond]
      have hg : ((c.has id now).2.get id now).2 = ((c.has id now).2.has id now).2 :=
        get_snd_eq_has_snd _ _ _
      simp only [hg]
      rcases ih (((c.has id now).2.has id now).2) with h1 | h1
      · rw [h1]
        rcases mapGet_has_snd_or (c.has id now).2 id j now with h2 | h2
        · rw [h2]
          exact mapGet_has_snd_or c id j now
        · right
          exact h2
      · right
        exact h1
    · rw [if_neg hcond]
      rcases ih (c.has id now).2 with h1 | h1
      · rw [h1]
        exact mapGet_has_snd_or c id j now
      · right
        exact h1

/-- Claim C5: when the remote collaborator fails, the failure propagates
unchanged to the caller of `getUser`/`getUsers`: the operation yields no
result value, already-identified cache hits are not surfaced, and no store
write occurs — the final store holds, for every key, either its original
entry or no entry (lazy evictions only). -/
theorem C5_remote_failure {V E : Type} (c : Cache V) (fetchOne : String → Except E V)
    (uid : V → String) (fetchMany : List String → Except E (List V))
    (id : String) (ids : List String) (force : Bool) (e e2 : E) (now now2 : Nat) :
    ((liveAt c id now = false ∨ force = true) → fetchOne id = .error e →
      getUser c fetchOne id force now now2 = (.error e, (c.has id now).2, [id])) ∧
    (ids.length ≤ 100 → (getUsersWalk c ids force now).2.1 ≠ [] →
      fetchMany (getUsersWalk c ids force now).2.1 = .error e2 →
      getUsers uid c fetchMany ids force now now2 =
        (.error (.remote e2), (getUsersWalk c ids force now).2.2,
         [(getUsersWalk c ids force now).2.1]) ∧
      ∀ j, mapGet ((getUsers uid c fetchMany ids force now now2).2.1).cache j = mapGet c.cache j ∨
           mapGet ((getUsers uid c fetchMany ids force now now2).2.1).cache j = none) := by
  constructor
  · intro hmiss hfetch
    have hcond : ((c.has id now).1 && !force) = false := by
      rcases hmiss with hm | hm
      · rw [has_fst_eq, hm]
        simp
      · rw [hm]
        simp
    simp [getUser, hcond, hfetch]
  · intro hlen hne hfetch
    have hng : ¬ ids.length > 100 := by omega
    have hpos : (getUsersWalk c ids force now).2.1.length > 0 := List.length_pos.mpr hne
    have hres : getUsers uid c fetchMany ids force now now2 =
        (.error (.remote e2), (getUsersWalk c ids force now).2.2,
         [(getUsersWalk c ids force now).2.1]) := by
      simp [getUsers, hng, hpos, hfetch]
    refine ⟨hres, ?_⟩
    rw [hres]
    intro j
    exact mapGet_walk_or ids c force now j

/-- A batch remote collaborator that always fails. -/
def fetchManyWFail : List String → Except Unit (List User) :=
  fun _ => .error ()

/-- A single-key remote collaborator that always fails. -/
def fetchOneWFail : String → Except Unit User :=
  fun _ => .error ()

/-- Witness for C5: a failing `fetchOne` for the missing key `"b"`
propagates the error out of `getUser`, and a failing `fetchMany` on batch
`["a", "b"]` (hit `"a"`, miss `"b"`) propagates the error out of
`getUsers` with no store write. -/
theorem C5_remote_failure_witness :
    ((liveAt cacheA "b" 50 = false ∨ false = true) ∧ fetchOneWFail "b" = .error () ∧
      getUser cacheA fetchOneWFail "b" false 50 60 = (.error (), (cacheA.has "b" 50).2, ["b"])) ∧
    (([("a" : String), "b"].length ≤ 100 ∧
      (getUsersWalk cacheA ["a", "b"] false 50).2.1 ≠ [] ∧
      fetchManyWFail (getUsersWalk cacheA ["a", "b"] false 50).2.1 = .error ()) ∧
      (getUsers User.id cacheA fetchManyWFail ["a", "b"] false 50 60 =
        (.error (.remote ()), (getUsersWalk cacheA ["a", "b"] false 50).2.2,
         [(getUsersWalk cacheA ["a", "b"] false 50).2.1]) ∧
       ∀ j, mapGet ((getUsers User.id cacheA fetchManyWFail ["a", "b"] false 50 60).2.1).cache j =
              mapGet cacheA.cache j ∨
            mapGet ((getUsers User.id cacheA fetchManyWFail ["a", "b"] false 50 60).2.1).cache j =
              none)) :=
  ⟨⟨Or.inl (by decide), rfl,
    (C5_remote_failure cacheA fetchOneWFail User.id fetchManyWFail "b" [] false () () 50 60).1
      (Or.inl (by decide)) rfl⟩,
   ⟨⟨by decide, by decide, rfl⟩,
    (C5_remote_failure cacheA fetchOneWFail User.id fetchManyWFail "b" ["a", "b"] false () () 50 60).2
      (by decide) (by decide) rfl⟩⟩

/-- Claim C8: on success, `verifyUser` writes exactly the returned user
into the store under that user's own id with the store-wide default
timeout — the same `set` contract `getUser` uses — leaves every other key
untouched, and returns the user-plus-scope response unchanged. -/
theorem C8_verifyUser_set {V E : Type} (uid : V → String) (c : Cache V)
    (post : String → Except E (VerifyUserResponse V)) (code : String) (now : Nat)
    (res : VerifyUserResponse V) (hp : post code = .ok res) :
    verifyUser uid c post code now = (.ok res, c.set (uid res.user) res.user c.timeout now) ∧
    mapGet ((verifyUser uid c post code now).2).cache (uid res.user) =
      some ⟨res.user, now + c.timeout⟩ ∧
    (∀ j, j ≠ uid res.user →
      mapGet ((verifyUser uid c post code now).2).cache j = mapGet c.cache j) := by
  have h1 : verifyUser uid c post code now =
      (.ok res, c.set (uid res.user) res.user c.timeout now) := by
    simp [verifyUser, hp, Cache.setDefault]
  refine ⟨h1, ?_, ?_⟩
  · rw [h1]
    simp [Cache.set, mapGet_mapSet]
  · intro j hj
    rw [h1]
    have hj2 : uid res.user ≠ j := Ne.symm hj
    simp [Cache.set, mapGet_mapSet, hj2]

/-- A concrete verification collaborator: code `"c1"` verifies as `userB`
with scope `"basic"`. -/
def postW : String → Except Unit (VerifyUserResponse User) :=
  fun cd => if cd = "c1" then .ok ⟨userB, "basic"⟩ else .error ()

/-- Witness for C8: verifying code `"c1"` caches `userB` under `"b"` with
the default timeout, leaves `"a"` untouched, and returns the response. -/
theorem C8_verifyUser_set_witness :
    postW "c1" = .ok ⟨userB, "basic"⟩ ∧
    (verifyUser User.id cacheA postW "c1" 50 =
       (.ok ⟨userB, "basic"⟩, cacheA.set (userB.id) userB cacheA.timeout 50) ∧
     mapGet ((verifyUser User.id cacheA postW "c1" 50).2).cache (userB.id) =
       some ⟨userB, 50 + cacheA.timeout⟩ ∧
     (∀ j, j ≠ userB.id →
       mapGet ((verifyUser User.id cacheA postW "c1" 50).2).cache j = mapGet cacheA.cache j)) :=
  ⟨rfl, C8_verifyUser_set User.id cacheA postW "c1" 50 ⟨userB, "basic"⟩ rfl⟩
